import Mathlib

/-!
Shallow embedding of the client-ranking computation of `src/App.js`
(repository `ranking-de-clientes3`).

The core under verification is the `rankedClients` memo (App.js lines
103–111):

  const clientTotals = clients.reduce((acc, sale) => {
      const identifier =
        `$\x7bsale.firstName\x7d|$\x7bsale.lastName\x7d|$\x7bsale.instagram || ''\x7d`.toLowerCase();
      if (!acc[identifier]) acc[identifier] =
        { firstName: sale.firstName, lastName: sale.lastName,
          instagram: sale.instagram, totalValor: 0, id: identifier };
      acc[identifier].totalValor += sale.valor || 0;
      return acc;
  }, {});
  return Object.values(clientTotals)
           .sort((a, b) => b.totalValor - a.totalValor)
           .slice(0, 10);

and the redaction in `RankingPanel` (App.js line 147), which renders row
`index` with rank `index + 1` and shows the numeric total only when
`index < 3`, otherwise the sentinel text "Valor Privado".

Modelling decisions (standard for a shallow embedding):
  * A JavaScript object used as a string-keyed accumulator preserves
    insertion order for its (non-integer-like) keys, and `Object.values`
    returns values in that order; the keys here always contain two pipe
    characters, so they are never array indices. The accumulator is
    therefore modelled as an association list in first-insertion order.
  * `acc[identifier].totalValor += sale.valor || 0` after the
    `if (!acc[identifier])` guard is create-with-0-then-add, which is
    collapsed here into "increment if present, else insert with the
    record's amount".
  * Monetary values are modelled as exact integers (`Int`); the claims are
    about exact accumulation, grouping, ordering and truncation, none of
    which depend on the float representation. `sale.valor || 0` is
    modelled as `Option Int` with `none` (and JS `undefined`) mapped to 0.
  * `Array.prototype.sort` is stable (ES2019); with the comparator
    `(a, b) => b.totalValor - a.totalValor` it is a stable descending
    sort on `totalValor`. A stable sort's output is uniquely determined
    by the comparator (the sorted permutation keeping ties in input
    order), so it is modelled with `List.insertionSort` — which is stable
    — on the relation `b.totalValor ≤ a.totalValor`.
  * `String.prototype.toLowerCase` is modelled by character-wise
    lower-casing of the string's character data (`Char.toLower` on each
    character — the same behaviour as `String.toLower`, spelled on the
    data list so that concrete instances evaluate inside the kernel; same
    behaviour as JS on ASCII data, which is all the claims exercise).
-/

set_option autoImplicit false

/-- One sale document from the `clients` Firestore collection, as consumed
by the `rankedClients` reducer: required names, the optional `instagram`
handle, and the paid amount `valor` (`none` models a missing field). -/
structure SaleRecord where
  firstName : String
  lastName : String
  instagram : Option String
  valor : Option Int
  deriving Repr, DecidableEq

/-- One aggregated entry of the `clientTotals` accumulator in App.js. -/
structure ClientTotal where
  firstName : String
  lastName : String
  instagram : Option String
  totalValor : Int
  id : String
  deriving Repr, DecidableEq

/-- `sale.instagram || ''`: the handle, with a missing handle mapped to the
empty string. -/
def handleOrEmpty (s : SaleRecord) : String :=
  match s.instagram with
  | some h => h
  | none => ""

/-- `sale.valor || 0`: the amount, with a missing amount mapped to 0. -/
def amountOf (s : SaleRecord) : Int :=
  match s.valor with
  | some v => v
  | none => 0

/-- `String.prototype.toLowerCase`, as character-wise lower-casing of the
string's character data (see the header comment). -/
def lowerStr (s : String) : String :=
  String.mk (s.data.map Char.toLower)

/-- The grouping key of App.js line 105:
``` `$\x7bsale.firstName\x7d|$\x7bsale.lastName\x7d|$\x7bsale.instagram || ''\x7d`.toLowerCase() ```. -/
def identifier (s : SaleRecord) : String :=
  lowerStr (s.firstName ++ "|" ++ s.lastName ++ "|" ++ handleOrEmpty s)

/-- One step of the `reduce` of App.js lines 104–109: if an entry with the
record's key exists, add the record's amount to it; otherwise append a new
entry carrying this record's display fields and the record's amount
(create-with-0-then-add collapsed, see the header comment). -/
def addSale (acc : List ClientTotal) (sale : SaleRecord) : List ClientTotal :=
  let key := identifier sale
  if acc.any (fun c => c.id == key) then
    acc.map (fun c =>
      if c.id = key then { c with totalValor := c.totalValor + amountOf sale } else c)
  else
    acc ++ [{ firstName := sale.firstName, lastName := sale.lastName,
              instagram := sale.instagram, totalValor := amountOf sale, id := key }]

/-- `clients.reduce(..., {})` followed by `Object.values`: the full grouped
set of client aggregates, in first-insertion order. -/
def clientTotals (clients : List SaleRecord) : List ClientTotal :=
  clients.foldl addSale []

/-- The sort relation realised by the comparator
`(a, b) => b.totalValor - a.totalValor` under a stable sort. -/
def byTotalDesc (a b : ClientTotal) : Prop :=
  b.totalValor ≤ a.totalValor

instance : DecidableRel byTotalDesc :=
  fun a b => inferInstanceAs (Decidable (b.totalValor ≤ a.totalValor))

instance : IsTotal ClientTotal byTotalDesc :=
  ⟨fun a b => le_total b.totalValor a.totalValor⟩

instance : IsTrans ClientTotal byTotalDesc :=
  ⟨fun _ _ _ h1 h2 => le_trans h2 h1⟩

/-- App.js line 110: group, sort descending by `totalValor` (stable), keep
the first 10 entries. This is the whole `rankedClients` memo. -/
def rankedClients (clients : List SaleRecord) : List ClientTotal :=
  ((clientTotals clients).insertionSort byTotalDesc).take 10

/-- What `RankingPanel` shows in the amount slot of a row: either the
numeric total (`R$ ...`) or the "Valor Privado" privacy sentinel. -/
inductive AmountDisplay where
  | shown (v : Int)
  | privado
  deriving Repr, DecidableEq

/-- One rendered leaderboard row of `RankingPanel` (App.js line 147):
rank is `index + 1`, and the amount slot. -/
structure RankingRow where
  rank : Nat
  firstName : String
  lastName : String
  display : AmountDisplay
  deriving Repr, DecidableEq

/-- The row `RankingPanel` renders for the client at position `index`:
`index < 3` shows the numeric total, otherwise the sentinel. -/
def renderRow (index : Nat) (c : ClientTotal) : RankingRow :=
  { rank := index + 1, firstName := c.firstName, lastName := c.lastName,
    display := if index < 3 then .shown c.totalValor else .privado }

/-- `clients.map((client, index) => ...)` of `RankingPanel`, with the
running index made explicit. -/
def renderFrom (index : Nat) : List ClientTotal → List RankingRow
  | [] => []
  | c :: rest => renderRow index c :: renderFrom (index + 1) rest

/-- The full rendered leaderboard of `RankingPanel`. -/
def renderRanking (l : List ClientTotal) : List RankingRow :=
  renderFrom 0 l

/-- The keys of the accumulated entries, in order. -/
def ids (l : List ClientTotal) : List String :=
  l.map ClientTotal.id

/-- Sum of `valor || 0` over a record list. -/
def sumAmounts (l : List SaleRecord) : Int :=
  (l.map amountOf).sum

/-- Sum of `totalValor` over a list of aggregates. -/
def sumTotals (l : List ClientTotal) : Int :=
  (l.map ClientTotal.totalValor).sum

/-- Spec-side notion of a string that stays non-empty after trimming
surrounding whitespace: it contains at least one non-whitespace character. -/
def nonBlank (s : String) : Bool :=
  s.data.any fun c => !c.isWhitespace

/-- Spec-side validity predicate, stated from the specification's words
(§3/§4: `firstName` and `lastName` non-empty after trimming, and a
numeric amount). The source has no such check; this definition exists
only to compare the code's behaviour against the spec's filter. -/
def specValidRecord (s : SaleRecord) : Bool :=
  nonBlank s.firstName && nonBlank s.lastName && s.valor.isSome

-- Concrete inputs used by counterexamples and witnesses.

/-- A record that is malformed in the spec's sense (empty names). -/
def badNameRecord : SaleRecord :=
  { firstName := "", lastName := "", instagram := none, valor := some 5 }

/-- A second malformed record (whitespace-only names), amount 7. -/
def blankNameRecord : SaleRecord :=
  { firstName := " ", lastName := " ", instagram := none, valor := some 7 }

/-- First half of the pipe-collision pair: names `a|b` / `c`. -/
def pipeRecordA : SaleRecord :=
  { firstName := "a|b", lastName := "c", instagram := none, valor := some 1 }

/-- Second half of the pipe-collision pair: names `a` / `b|c`. -/
def pipeRecordB : SaleRecord :=
  { firstName := "a", lastName := "b|c", instagram := none, valor := some 2 }

/-- A sale by `Ana Silva`. -/
def anaRecord : SaleRecord :=
  { firstName := "Ana", lastName := "Silva", instagram := none, valor := some 1 }

/-- A later sale by the same client with different letter case. -/
def anaUpperRecord : SaleRecord :=
  { firstName := "ANA", lastName := "SILVA", instagram := none, valor := some 2 }

/-- The entry the code actually materialises for the two Ana records. -/
def anaExpectedEntry : ClientTotal :=
  { firstName := "Ana", lastName := "Silva", instagram := none,
    totalValor := 3, id := "ana|silva|" }

/-- A client `A` with amount 10. -/
def saleA10 : SaleRecord :=
  { firstName := "A", lastName := "X", instagram := none, valor := some 10 }

/-- A client `B` with amount 5. -/
def saleB5 : SaleRecord :=
  { firstName := "B", lastName := "Y", instagram := none, valor := some 5 }

/-- A later negative sale by client `A`. -/
def saleANeg : SaleRecord :=
  { firstName := "A", lastName := "X", instagram := none, valor := some (-20) }

/-! ### Helper lemmas about the accumulator -/

theorem any_id_eq (acc : List ClientTotal) (k : String) :
    (acc.any fun c => c.id == k) = true ↔ k ∈ ids acc := by
  simp [ids, List.any_eq_true]

theorem ids_map_update (l : List ClientTotal) (k : String) (v : Int) :
    ids (l.map fun c =>
      if c.id = k then { c with totalValor := c.totalValor + v } else c) = ids l := by
  induction l with
  | nil => rfl
  | cons c l ih =>
    simp only [ids, List.map_cons, List.map_map] at ih ⊢
    refine congrArg₂ List.cons ?_ ih
    by_cases h : c.id = k <;> simp [h]

theorem ids_addSale (acc : List ClientTotal) (s : SaleRecord) :
    ids (addSale acc s) =
      if identifier s ∈ ids acc then ids acc else ids acc ++ [identifier s] := by
  by_cases h : identifier s ∈ ids acc
  · have hany : (acc.any fun c => c.id == identifier s) = true := (any_id_eq acc _).mpr h
    rw [if_pos h]
    simp only [addSale, hany, if_true]
    exact ids_map_update acc (identifier s) (amountOf s)
  · have hany : (acc.any fun c => c.id == identifier s) = false := by
      rw [← Bool.not_eq_true]
      exact fun hh => h ((any_id_eq acc _).mp hh)
    rw [if_neg h]
    simp [addSale, hany, ids]

theorem clientTotals_concat (cs : List SaleRecord) (s : SaleRecord) :
    clientTotals (cs ++ [s]) = addSale (clientTotals cs) s := by
  simp [clientTotals, List.foldl_append]

theorem mem_ids_clientTotals (cs : List SaleRecord) (k : String) :
    k ∈ ids (clientTotals cs) ↔ k ∈ cs.map identifier := by
  induction cs using List.reverseRecOn generalizing k with
  | nil => simp [clientTotals, ids]
  | append_singleton cs s ih =>
    rw [clientTotals_concat, ids_addSale]
    by_cases h : identifier s ∈ ids (clientTotals cs)
    · rw [if_pos h]
      have hs : identifier s ∈ cs.map identifier := (ih (identifier s)).mp h
      simp only [List.map_append, List.map_cons, List.map_nil, List.mem_append,
        List.mem_singleton, ih k]
      constructor
      · exact Or.inl
      · rintro (hk | rfl)
        · exact hk
        · exact hs
    · rw [if_neg h]
      simp [ih]

theorem ids_clientTotals_nodup (cs : List SaleRecord) :
    (ids (clientTotals cs)).Nodup := by
  induction cs using List.reverseRecOn with
  | nil => simp [clientTotals, ids]
  | append_singleton cs s ih =>
    rw [clientTotals_concat, ids_addSale]
    by_cases h : identifier s ∈ ids (clientTotals cs)
    · rw [if_pos h]
      exact ih
    · rw [if_neg h]
      simp [List.nodup_append, ih, h]

theorem mem_ids_of_mem {cs : List SaleRecord} {s : SaleRecord} (hs : s ∈ cs) :
    identifier s ∈ ids (clientTotals cs) :=
  (mem_ids_clientTotals cs _).mpr (List.mem_map_of_mem identifier hs)

theorem exists_entry_of_mem {cs : List SaleRecord} {s : SaleRecord} (hs : s ∈ cs) :
    ∃ c ∈ clientTotals cs, c.id = identifier s := by
  obtain ⟨c, hc, hid⟩ := List.mem_map.mp (mem_ids_of_mem hs)
  exact ⟨c, hc, hid⟩

theorem entry_eq_of_id_eq (cs : List SaleRecord) {c c' : ClientTotal}
    (hc : c ∈ clientTotals cs) (hc' : c' ∈ clientTotals cs) (h : c.id = c'.id) :
    c = c' :=
  List.inj_on_of_nodup_map (ids_clientTotals_nodup cs) hc hc' h

theorem map_update_of_not_mem (l : List ClientTotal) (k : String) (v : Int)
    (h : k ∉ ids l) :
    (l.map fun c =>
      if c.id = k then { c with totalValor := c.totalValor + v } else c) = l := by
  induction l with
  | nil => rfl
  | cons c l ih =>
    simp only [ids, List.map_cons, List.mem_cons, not_or] at h
    rw [List.map_cons, if_neg (fun hh => h.1 hh.symm), ih]
    simp only [ids]
    exact fun hh => h.2 hh

theorem sumTotals_cons (c : ClientTotal) (l : List ClientTotal) :
    sumTotals (c :: l) = c.totalValor + sumTotals l := by
  simp [sumTotals]

theorem sumTotals_map_update (l : List ClientTotal) (k : String) (v : Int)
    (hn : (ids l).Nodup) (hk : k ∈ ids l) :
    sumTotals (l.map fun c =>
      if c.id = k then { c with totalValor := c.totalValor + v } else c)
      = sumTotals l + v := by
  induction l with
  | nil => simp [ids] at hk
  | cons c l ih =>
    simp only [ids, List.map_cons, List.nodup_cons, List.mem_map] at hn
    rw [List.map_cons]
    by_cases h : c.id = k
    · have hnot : k ∉ ids l := by
        simp only [ids, List.mem_map]
        rintro ⟨c', hc', hid⟩
        exact hn.1 ⟨c', hc', hid.trans h.symm⟩
      rw [if_pos h, map_update_of_not_mem l k v hnot, sumTotals_cons, sumTotals_cons]
      dsimp only
      omega
    · have hk' : k ∈ ids l := by
        rcases (by simpa [ids] using hk : k = c.id ∨ k ∈ ids l) with hh | hh
        · exact absurd hh.symm h
        · exact hh
      have hn' : (ids l).Nodup := by
        simpa [ids] using hn.2
      rw [if_neg h, sumTotals_cons, sumTotals_cons, ih hn' hk']
      omega

theorem sumTotals_addSale (acc : List ClientTotal) (s : SaleRecord)
    (hn : (ids acc).Nodup) :
    sumTotals (addSale acc s) = sumTotals acc + amountOf s := by
  by_cases h : identifier s ∈ ids acc
  · have hany : (acc.any fun c => c.id == identifier s) = true := (any_id_eq acc _).mpr h
    simp only [addSale, hany, if_true]
    exact sumTotals_map_update acc _ _ hn h
  · have hany : (acc.any fun c => c.id == identifier s) = false := by
      rw [← Bool.not_eq_true]
      exact fun hh => h ((any_id_eq acc _).mp hh)
    simp [addSale, hany, sumTotals]

theorem sumTotals_clientTotals (cs : List SaleRecord) :
    sumTotals (clientTotals cs) = sumAmounts cs := by
  induction cs using List.reverseRecOn with
  | nil => rfl
  | append_singleton cs s ih =>
    rw [clientTotals_concat, sumTotals_addSale _ _ (ids_clientTotals_nodup cs), ih]
    simp [sumAmounts]

theorem totalValor_eq_keySum (cs : List SaleRecord) :
    ∀ c ∈ clientTotals cs,
      c.totalValor = sumAmounts (cs.filter fun r => identifier r == c.id) := by
  induction cs using List.reverseRecOn with
  | nil => simp [clientTotals]
  | append_singleton cs s ih =>
    intro c hc
    rw [clientTotals_concat] at hc
    by_cases hmem : identifier s ∈ ids (clientTotals cs)
    · have hany : ((clientTotals cs).any fun c => c.id == identifier s) = true :=
        (any_id_eq _ _).mpr hmem
      simp only [addSale, hany, if_true, List.mem_map] at hc
      obtain ⟨c0, hc0, rfl⟩ := hc
      by_cases h : c0.id = identifier s
      · rw [if_pos h]
        rw [List.filter_append]
        have hpred : (identifier s == c0.id) = true := beq_iff_eq.mpr h.symm
        simp only [List.filter_cons, List.filter_nil, hpred, if_true]
        simp only [sumAmounts, List.map_append, List.sum_append, List.map_cons,
          List.map_nil, List.sum_cons, List.sum_nil]
        have := ih c0 hc0
        simp only [sumAmounts] at this
        omega
      · rw [if_neg h]
        rw [List.filter_append]
        have hpred : (identifier s == c0.id) = false := by
          rw [beq_eq_false_iff_ne]
          exact fun hh => h hh.symm
        simp only [List.filter_cons, List.filter_nil, hpred, Bool.false_eq_true,
          if_false, List.append_nil]
        exact ih c0 hc0
    · have hany : ((clientTotals cs).any fun c => c.id == identifier s) = false := by
        rw [← Bool.not_eq_true]
        exact fun hh => hmem ((any_id_eq _ _).mp hh)
      simp only [addSale, hany, Bool.false_eq_true, if_false, List.mem_append,
        List.mem_singleton] at hc
      rcases hc with hc | rfl
      · have hne : identifier s ≠ c.id := by
          intro hh
          exact hmem (hh ▸ List.mem_map_of_mem ClientTotal.id hc)
        rw [List.filter_append]
        have hpred : (identifier s == c.id) = false := beq_eq_false_iff_ne.mpr hne
        simp only [List.filter_cons, List.filter_nil, hpred, Bool.false_eq_true,
          if_false, List.append_nil]
        exact ih c hc
      · have hnone : (cs.filter fun r => identifier r == identifier s) = [] := by
          rw [List.filter_eq_nil_iff]
          intro r hr hh
          exact hmem ((mem_ids_clientTotals cs _).mpr
            ((beq_iff_eq.mp hh) ▸ List.mem_map_of_mem identifier hr))
        show amountOf s = sumAmounts ((cs ++ [s]).filter fun r => identifier r == identifier s)
        rw [List.filter_append, hnone]
        simp [sumAmounts]

theorem mem_addSale {acc : List ClientTotal} {s : SaleRecord} {c : ClientTotal}
    (hc : c ∈ addSale acc s) :
    (∃ c0 ∈ acc, c0.id = c.id ∧ c.firstName = c0.firstName ∧ c.lastName = c0.lastName
      ∧ c.instagram = c0.instagram)
    ∨ (identifier s ∉ ids acc ∧ c.id = identifier s ∧ c.firstName = s.firstName
      ∧ c.lastName = s.lastName ∧ c.instagram = s.instagram) := by
  by_cases h : identifier s ∈ ids acc
  · have hany : (acc.any fun c => c.id == identifier s) = true := (any_id_eq acc _).mpr h
    simp only [addSale, hany, if_true, List.mem_map] at hc
    obtain ⟨c0, hc0, rfl⟩ := hc
    left
    by_cases hid : c0.id = identifier s
    · rw [if_pos hid]
      exact ⟨c0, hc0, rfl, rfl, rfl, rfl⟩
    · rw [if_neg hid]
      exact ⟨c0, hc0, rfl, rfl, rfl, rfl⟩
  · have hany : (acc.any fun c => c.id == identifier s) = false := by
      rw [← Bool.not_eq_true]
      exact fun hh => h ((any_id_eq acc _).mp hh)
    simp only [addSale, hany, Bool.false_eq_true, if_false, List.mem_append,
      List.mem_singleton] at hc
    rcases hc with hc | rfl
    · exact Or.inl ⟨c, hc, rfl, rfl, rfl, rfl⟩
    · exact Or.inr ⟨h, rfl, rfl, rfl, rfl⟩

theorem ids_subset_addSale (acc : List ClientTotal) (s : SaleRecord) :
    ids acc ⊆ ids (addSale acc s) := by
  rw [ids_addSale]
  by_cases h : identifier s ∈ ids acc
  · rw [if_pos h]
    exact fun _ hx => hx
  · rw [if_neg h]
    exact List.subset_append_left _ _

theorem identifier_mem_ids_addSale (acc : List ClientTotal) (s : SaleRecord) :
    identifier s ∈ ids (addSale acc s) := by
  rw [ids_addSale]
  by_cases h : identifier s ∈ ids acc
  · rw [if_pos h]
    exact h
  · rw [if_neg h]
    exact List.mem_append_right _ (List.mem_singleton_self _)

theorem foldl_fields (cs : List SaleRecord) :
    ∀ (acc : List ClientTotal), ∀ c ∈ List.foldl addSale acc cs,
      (∃ c0 ∈ acc, c0.id = c.id ∧ c.firstName = c0.firstName ∧ c.lastName = c0.lastName
        ∧ c.instagram = c0.instagram)
      ∨ (c.id ∉ ids acc ∧ ∃ s0, cs.find? (fun r => identifier r == c.id) = some s0
          ∧ c.firstName = s0.firstName ∧ c.lastName = s0.lastName
          ∧ c.instagram = s0.instagram) := by
  induction cs with
  | nil =>
    intro acc c hc
    exact Or.inl ⟨c, hc, rfl, rfl, rfl, rfl⟩
  | cons s cs ih =>
    intro acc c hc
    rw [List.foldl_cons] at hc
    rcases ih (addSale acc s) c hc with ⟨c0, hc0, hid, hf, hl, hi⟩ |
      ⟨hnotin, s0, hfind, hf, hl, hi⟩
    · rcases mem_addSale hc0 with ⟨c1, hc1, hid1, hf1, hl1, hi1⟩ |
        ⟨habs, hid1, hf1, hl1, hi1⟩
      · exact Or.inl ⟨c1, hc1, hid1.trans hid, hf.trans hf1, hl.trans hl1, hi.trans hi1⟩
      · right
        have hcid : c.id = identifier s := hid.symm.trans hid1
        refine ⟨?_, s, ?_, hf.trans hf1, hl.trans hl1, hi.trans hi1⟩
        · rw [hcid]
          exact habs
        · exact List.find?_cons_of_pos _ (beq_iff_eq.mpr hcid.symm)
    · right
      refine ⟨fun hmem => hnotin (ids_subset_addSale acc s hmem), s0, ?_, hf, hl, hi⟩
      rw [List.find?_cons_of_neg _ ?_]
      · exact hfind
      · intro hh
        exact hnotin (beq_iff_eq.mp hh ▸ identifier_mem_ids_addSale acc s)

theorem fields_from_first {cs : List SaleRecord} {c : ClientTotal}
    (hc : c ∈ clientTotals cs) :
    ∃ s0, cs.find? (fun r => identifier r == c.id) = some s0
      ∧ c.firstName = s0.firstName ∧ c.lastName = s0.lastName
      ∧ c.instagram = s0.instagram := by
  rcases foldl_fields cs [] c hc with ⟨c0, hc0, _⟩ | ⟨_, h⟩
  · exact absurd hc0 (List.not_mem_nil c0)
  · exact h

/-! ### Lower-casing distributes over concatenation -/

theorem lowerStr_append (a b : String) :
    lowerStr (a ++ b) = lowerStr a ++ lowerStr b := by
  apply String.ext
  simp [lowerStr]

theorem identifier_eq_of_lower_fields {s1 s2 : SaleRecord}
    (hf : lowerStr s1.firstName = lowerStr s2.firstName)
    (hl : lowerStr s1.lastName = lowerStr s2.lastName)
    (hh : lowerStr (handleOrEmpty s1) = lowerStr (handleOrEmpty s2)) :
    identifier s1 = identifier s2 := by
  simp only [identifier, lowerStr_append, hf, hl, hh]

/-! ### Sorting and rendering helpers -/

theorem rankedClients_sorted (cs : List SaleRecord) :
    List.Sorted byTotalDesc (rankedClients cs) :=
  List.Pairwise.sublist (List.take_sublist _ _)
    (List.sorted_insertionSort byTotalDesc (clientTotals cs))

theorem renderFrom_length (k : Nat) (l : List ClientTotal) :
    (renderFrom k l).length = l.length := by
  induction l generalizing k with
  | nil => rfl
  | cons c l ih => simp [renderFrom, ih]

theorem renderFrom_get (k : Nat) (l : List ClientTotal) (i : Nat)
    (h : i < (renderFrom k l).length) (h' : i < l.length) :
    (renderFrom k l).get ⟨i, h⟩ = renderRow (k + i) (l.get ⟨i, h'⟩) := by
  induction l generalizing k i with
  | nil => exact absurd h' (Nat.not_lt_zero i)
  | cons c l ih =>
    cases i with
    | zero => rfl
    | succ i =>
      have h2 : i < (renderFrom (k + 1) l).length := by
        simpa [renderFrom] using h
      have h2' : i < l.length := Nat.lt_of_succ_lt_succ h'
      have hstep : (renderFrom k (c :: l)).get ⟨i + 1, h⟩
          = (renderFrom (k + 1) l).get ⟨i, h2⟩ := rfl
      rw [hstep, ih (k + 1) i h2 h2']
      have harith : k + 1 + i = k + (i + 1) := by omega
      rw [harith]
      rfl

/-! ### Claims -/

/-- C1 (amended). Aggregation correctness without the validity filter: the
sum of `totalValor` over the full grouped set equals the sum of `valor`
(missing treated as 0) over ALL input records — the code filters nothing —
and each client's `totalValor` equals the sum of amounts over exactly the
records sharing that client's identifier key. -/
theorem aggregation_totals_correct (cs : List SaleRecord) :
    sumTotals (clientTotals cs) = sumAmounts cs ∧
    ∀ c ∈ clientTotals cs,
      c.totalValor = sumAmounts (cs.filter fun r => identifier r == c.id) :=
  ⟨sumTotals_clientTotals cs, totalValor_eq_keySum cs⟩

/-- C1 witness: both parts at the two-record Ana input, the second part at
the concrete aggregated entry. -/
theorem aggregation_totals_correct_witness :
    sumTotals (clientTotals [anaRecord, anaUpperRecord])
      = sumAmounts [anaRecord, anaUpperRecord] ∧
    anaExpectedEntry.totalValor
      = sumAmounts ([anaRecord, anaUpperRecord].filter
          fun r => identifier r == anaExpectedEntry.id) :=
  ⟨(aggregation_totals_correct [anaRecord, anaUpperRecord]).1,
    (aggregation_totals_correct [anaRecord, anaUpperRecord]).2
      anaExpectedEntry (by decide)⟩

/-- C1 counterexample to the claim as stated: a record the spec deems
invalid (blank names) still contributes its amount 5, so the grouped total
differs from the sum over spec-valid records (5 versus 0). -/
theorem aggregation_valid_only_cex :
    sumTotals (clientTotals [badNameRecord])
      ≠ sumAmounts ([badNameRecord].filter fun r => specValidRecord r) := by
  decide

/-- C2 (amended). No record is excluded: every input record — including
ones with blank names or a missing amount — materialises a client entry
under its identifier key, and (with C1's sums) its amount counts; the
computation is total, so malformed records never make it fail. -/
theorem no_record_excluded (cs : List SaleRecord) (s : SaleRecord) (hs : s ∈ cs) :
    identifier s ∈ ids (clientTotals cs) :=
  mem_ids_of_mem hs

/-- C2 witness at a single malformed record. -/
theorem no_record_excluded_witness :
    identifier blankNameRecord ∈ ids (clientTotals [blankNameRecord]) :=
  no_record_excluded [blankNameRecord] blankNameRecord (List.mem_singleton_self _)

/-- C2 counterexample to the claim as stated: a record with whitespace-only
names (spec-invalid) is NOT excluded: it produces a client entry and its
amount 7 is aggregated. -/
theorem malformed_excluded_cex :
    specValidRecord blankNameRecord = false ∧
    (clientTotals [blankNameRecord]).length = 1 ∧
    sumTotals (clientTotals [blankNameRecord]) = 7 := by
  decide

/-- C3 (amended). Two present records are aggregated into a common entry
iff their lower-cased pipe-joined keys are equal; equality of the
case-insensitive field tuples still implies a common entry, but the
converse fails when a field itself contains the pipe separator. -/
theorem same_entry_iff_identifier (cs : List SaleRecord) (s1 s2 : SaleRecord)
    (h1 : s1 ∈ cs) (_h2 : s2 ∈ cs) :
    ((∃ c ∈ clientTotals cs, c.id = identifier s1 ∧ c.id = identifier s2)
      ↔ identifier s1 = identifier s2) ∧
    (lowerStr s1.firstName = lowerStr s2.firstName →
      lowerStr s1.lastName = lowerStr s2.lastName →
      lowerStr (handleOrEmpty s1) = lowerStr (handleOrEmpty s2) →
      identifier s1 = identifier s2) := by
  constructor
  · constructor
    · rintro ⟨c, _, hid1, hid2⟩
      exact hid1.symm.trans hid2
    · intro heq
      obtain ⟨c, hc, hid⟩ := exists_entry_of_mem h1
      exact ⟨c, hc, hid, hid.trans heq⟩
  · exact fun hf hl hh => identifier_eq_of_lower_fields hf hl hh

/-- C3 witness at the pipe-collision pair. -/
theorem same_entry_iff_identifier_witness :
    ((∃ c ∈ clientTotals [pipeRecordA, pipeRecordB],
        c.id = identifier pipeRecordA ∧ c.id = identifier pipeRecordB)
      ↔ identifier pipeRecordA = identifier pipeRecordB) ∧
    (lowerStr pipeRecordA.firstName = lowerStr pipeRecordB.firstName →
      lowerStr pipeRecordA.lastName = lowerStr pipeRecordB.lastName →
      lowerStr (handleOrEmpty pipeRecordA) = lowerStr (handleOrEmpty pipeRecordB) →
      identifier pipeRecordA = identifier pipeRecordB) :=
  same_entry_iff_identifier [pipeRecordA, pipeRecordB] pipeRecordA pipeRecordB
    (by decide) (by decide)

/-- C3 counterexample to the claim as stated: records `a|b`/`c` and
`a`/`b|c` have different case-insensitive tuples, yet the joined key is the
same `a|b|c|` for both, and the two records are merged into one entry. -/
theorem identity_tuple_merge_cex :
    lowerStr pipeRecordA.firstName ≠ lowerStr pipeRecordB.firstName ∧
    identifier pipeRecordA = identifier pipeRecordB ∧
    (clientTotals [pipeRecordA, pipeRecordB]).length = 1 := by
  decide

/-- C4 (amended). Materialization source: the displayed fields of every
aggregated entry are copied from the FIRST-seen record with that identity
in the single accumulation pass — `if (!acc[identifier])` sets them only
when the key is still absent. -/
theorem materialized_from_first_seen (cs : List SaleRecord) (c : ClientTotal)
    (hc : c ∈ clientTotals cs) :
    ∃ s0, cs.find? (fun r => identifier r == c.id) = some s0
      ∧ c.firstName = s0.firstName ∧ c.lastName = s0.lastName
      ∧ c.instagram = s0.instagram :=
  fields_from_first hc

/-- C4 witness at the two-record Ana input. -/
theorem materialized_from_first_seen_witness :
    ∃ s0, [anaRecord, anaUpperRecord].find?
        (fun r => identifier r == anaExpectedEntry.id) = some s0
      ∧ anaExpectedEntry.firstName = s0.firstName
      ∧ anaExpectedEntry.lastName = s0.lastName
      ∧ anaExpectedEntry.instagram = s0.instagram :=
  materialized_from_first_seen [anaRecord, anaUpperRecord] anaExpectedEntry (by decide)

/-- C4 counterexample to the claim as stated: after `Ana Silva` then
`ANA SILVA`, the single aggregated entry carries the first record's
spelling `Ana`, not the last-seen record's `ANA`. -/
theorem materialization_last_seen_cex :
    clientTotals [anaRecord, anaUpperRecord] = [anaExpectedEntry] ∧
    anaExpectedEntry.firstName ≠ anaUpperRecord.firstName := by
  decide

/-- C5. Case-insensitive grouping: two present records whose first name,
last name and handle-or-empty agree up to letter case share one identifier,
and exactly one aggregated entry carries that identifier. -/
theorem case_insensitive_grouping (cs : List SaleRecord) (s1 s2 : SaleRecord)
    (h1 : s1 ∈ cs) (_h2 : s2 ∈ cs)
    (hf : lowerStr s1.firstName = lowerStr s2.firstName)
    (hl : lowerStr s1.lastName = lowerStr s2.lastName)
    (hh : lowerStr (handleOrEmpty s1) = lowerStr (handleOrEmpty s2)) :
    identifier s1 = identifier s2 ∧
    ∃! c, c ∈ clientTotals cs ∧ c.id = identifier s1 := by
  refine ⟨identifier_eq_of_lower_fields hf hl hh, ?_⟩
  obtain ⟨c, hc, hid⟩ := exists_entry_of_mem h1
  refine ⟨c, ⟨hc, hid⟩, ?_⟩
  rintro c' ⟨hc', hid'⟩
  exact entry_eq_of_id_eq cs hc' hc (hid'.trans hid.symm)

/-- C5 witness at the two Ana records differing only in case. -/
theorem case_insensitive_grouping_witness :
    identifier anaRecord = identifier anaUpperRecord ∧
    ∃! c, c ∈ clientTotals [anaRecord, anaUpperRecord]
      ∧ c.id = identifier anaRecord :=
  case_insensitive_grouping [anaRecord, anaUpperRecord] anaRecord anaUpperRecord
    (by decide) (by decide) (by decide) (by decide) (by decide)

/-- C6. Ordering: the output leaderboard is non-increasing in `totalValor`:
each adjacent pair satisfies `totalAmount[i] >= totalAmount[i+1]`. -/
theorem ordering_non_increasing (cs : List SaleRecord) (i : Nat)
    (h1 : i < (rankedClients cs).length) (h2 : i + 1 < (rankedClients cs).length) :
    ((rankedClients cs).get ⟨i + 1, h2⟩).totalValor
      ≤ ((rankedClients cs).get ⟨i, h1⟩).totalValor :=
  (rankedClients_sorted cs).rel_get_of_lt (Fin.mk_lt_mk.mpr (Nat.lt_succ_self i))

/-- C6 witness at a concrete two-client input. -/
theorem ordering_non_increasing_witness :
    ((rankedClients [saleA10, saleB5]).get ⟨1, by decide⟩).totalValor
      ≤ ((rankedClients [saleA10, saleB5]).get ⟨0, by decide⟩).totalValor :=
  ordering_non_increasing [saleA10, saleB5] 0 (by decide) (by decide)

/-- C7. Bounding: the leaderboard length is the minimum of the number of
distinct identifiers among the input records and 10. -/
theorem bounding_length (cs : List SaleRecord) :
    (rankedClients cs).length = min ((cs.map identifier).toFinset.card) 10 := by
  have h1 : (clientTotals cs).length = (ids (clientTotals cs)).length := by
    simp [ids]
  have h2 : (ids (clientTotals cs)).toFinset = (cs.map identifier).toFinset := by
    apply Finset.ext
    intro k
    simp [List.mem_toFinset, mem_ids_clientTotals]
  have hlen : (clientTotals cs).length = (cs.map identifier).toFinset.card := by
    rw [h1, ← List.toFinset_card_of_nodup (ids_clientTotals_nodup cs), h2]
  simp only [rankedClients, List.length_take, List.length_insertionSort, hlen,
    Nat.min_comm]

/-- C8. Redaction boundary: row `i` of the rendered leaderboard has rank
`i + 1`; rows with rank at most 3 show the numeric total of the ranked
client at that position, rows with rank above 3 show only the
`Valor Privado` sentinel. -/
theorem redaction_boundary (cs : List SaleRecord) (i : Nat)
    (h : i < (renderRanking (rankedClients cs)).length)
    (h' : i < (rankedClients cs).length) :
    ((renderRanking (rankedClients cs)).get ⟨i, h⟩).rank = i + 1 ∧
    (i + 1 ≤ 3 →
      ((renderRanking (rankedClients cs)).get ⟨i, h⟩).display
        = AmountDisplay.shown (((rankedClients cs).get ⟨i, h'⟩).totalValor)) ∧
    (3 < i + 1 →
      ((renderRanking (rankedClients cs)).get ⟨i, h⟩).display
        = AmountDisplay.privado) := by
  have hget : (renderRanking (rankedClients cs)).get ⟨i, h⟩
      = renderRow i ((rankedClients cs).get ⟨i, h'⟩) := by
    simpa [renderRanking, Nat.zero_add] using
      renderFrom_get 0 (rankedClients cs) i h h'
  rw [hget]
  unfold renderRow
  by_cases hlt : i < 3
  · refine ⟨rfl, fun _ => ?_, fun hgt => absurd hgt (by omega)⟩
    simp [hlt]
  · refine ⟨rfl, fun hle => absurd hle (by omega), fun _ => ?_⟩
    simp [hlt]

/-- C8 witness at a one-client input, position 0 (rank 1, disclosed). -/
theorem redaction_boundary_witness :
    ((renderRanking (rankedClients [saleA10])).get ⟨0, by decide⟩).rank = 0 + 1 ∧
    (0 + 1 ≤ 3 →
      ((renderRanking (rankedClients [saleA10])).get ⟨0, by decide⟩).display
        = AmountDisplay.shown
            (((rankedClients [saleA10]).get ⟨0, by decide⟩).totalValor)) ∧
    (3 < 0 + 1 →
      ((renderRanking (rankedClients [saleA10])).get ⟨0, by decide⟩).display
        = AmountDisplay.privado) :=
  redaction_boundary [saleA10] 0 (by decide) (by decide)

/-- C9. Empty input: the ranking of the empty collection is the empty
leaderboard and renders as the empty row list; the computation is a total
function of its input by construction, so it cannot throw. -/
theorem empty_input_empty_output :
    rankedClients [] = [] ∧ renderRanking (rankedClients []) = [] :=
  ⟨rfl, rfl⟩

/-- C10. No amount validation: a record carrying a negative amount is still
aggregated and yields an entry with that negative total; concretely, client
A leads B on `[A:10, B:5]` but a later `A:-20` record drops A below B and
makes the overall total negative. -/
theorem negative_amounts_aggregated (s : SaleRecord) (v : Int)
    (hv : s.valor = some v) (hneg : v < 0) :
    (∃ c ∈ clientTotals [s], c.totalValor = v ∧ c.totalValor < 0) ∧
    (rankedClients [saleA10, saleB5]).map ClientTotal.firstName = ["A", "B"] ∧
    (rankedClients [saleA10, saleB5, saleANeg]).map ClientTotal.firstName
      = ["B", "A"] ∧
    sumTotals (clientTotals [saleA10, saleB5, saleANeg]) = -5 := by
  refine ⟨?_, by decide, by decide, by decide⟩
  refine ⟨⟨s.firstName, s.lastName, s.instagram, v, identifier s⟩, ?_, rfl, hneg⟩
  show _ ∈ addSale [] s
  simp [addSale, amountOf, hv]

/-- C10 witness at the concrete negative record. -/
theorem negative_amounts_aggregated_witness :
    (∃ c ∈ clientTotals [saleANeg], c.totalValor = -20 ∧ c.totalValor < 0) ∧
    (rankedClients [saleA10, saleB5]).map ClientTotal.firstName = ["A", "B"] ∧
    (rankedClients [saleA10, saleB5, saleANeg]).map ClientTotal.firstName
      = ["B", "A"] ∧
    sumTotals (clientTotals [saleA10, saleB5, saleANeg]) = -5 :=
  negative_amounts_aggregated saleANeg (-20) (by decide) (by decide)
